import Mathlib

/-
Verification development for the marmot-edge video pipeline
(backend/app/services/video_service.py, backend/app/services/zone_analyzer.py,
backend/app/workers/video_processor.py).

Timestamps are modelled as rational numbers of seconds; machine floats of the
source are modelled exactly over the rationals.  Python dicts keyed by zone id
are modelled as total functions from zone ids to values (the source only ever
reads keys it has initialised), and Python lists as Lean lists.
-/

namespace Marmot

/-! ## Core data model (video_service.py, video_processor.py) -/

/-- Bounding box of one detection: tracking dict key bbox with x1, y1, x2, y2. -/
structure BBox where
  x1 : ℚ
  y1 : ℚ
  x2 : ℚ
  y2 : ℚ
deriving DecidableEq, Repr

/-- One YOLO tracking result: bounding box and optional persistent track id
(tracking dict; a missing or None track id is modelled as none). -/
structure Tracking where
  bbox : BBox
  track_id : Option Int
deriving DecidableEq, Repr

/-- Rectangle zone definition, video_service.py lines 42-50. -/
structure Rectangle where
  x_min : ℚ
  y_min : ℚ
  x_max : ℚ
  y_max : ℚ
  zone_id : Int
  name : String
deriving DecidableEq, Repr

/-- RectangleZoneAnalyzer._get_person_center, video_processor.py lines 121-126:
midpoint of the bounding box. -/
def get_person_center (t : Tracking) : ℚ × ℚ :=
  ((t.bbox.x1 + t.bbox.x2) / 2, (t.bbox.y1 + t.bbox.y2) / 2)

/-- RectangleZoneAnalyzer._is_point_in_rectangle, video_processor.py lines
128-141. -/
def is_point_in_rectangle (p : ℚ × ℚ) (r : Rectangle) : Bool :=
  decide (r.x_min ≤ p.1 ∧ p.1 ≤ r.x_max ∧ r.y_min ≤ p.2 ∧ p.2 ≤ r.y_max)

/-- Zone status derivation shared by video_processor.py lines 88-94 and
zone_analyzer.py lines 73-79: person_count 0 maps to idle, 1 to work,
anything else to other. -/
def statusOfCount (n : Nat) : String :=
  if n = 0 then "idle" else if n = 1 then "work" else "other"

/-! ## RectangleZoneAnalyzer.analyze_trackings_in_rectangles
(video_processor.py lines 41-119) -/

/-- The double loop of analyze_trackings_in_rectangles, lines 65-82: build
zone occupancy (zone id to appended track ids) and the list of track-history
append events (track id, zone id) in program order.  A tracking whose track id
is None is skipped entirely (line 66-67). -/
def trackingPass (trackings : List Tracking) (rects : List Rectangle) :
    (Int → List Int) × List (Int × Int) :=
  trackings.foldl
    (fun st t =>
      match t.track_id with
      | none => st
      | some tid =>
        rects.foldl
          (fun st r =>
            if is_point_in_rectangle (get_person_center t) r then
              (fun z => if z = r.zone_id then st.1 z ++ [tid] else st.1 z,
               st.2 ++ [(tid, r.zone_id)])
            else st)
          st)
    (fun _ => [], [])

/-- Per-zone entry of the zone_results dict, lines 99-112 (fields not relevant
to the verified claims are elided). -/
structure ZoneResult where
  zone_id : Int
  person_count : Nat
  status : String
  track_ids : List Int
deriving DecidableEq, Repr

/-- analyze_trackings_in_rectangles, lines 41-119: zone results (lines 85-112),
track-history append events (via _update_track_history, line 77), and
total_persons_detected (line 118), which counts only trackings carrying a
track id. -/
def analyze_trackings_in_rectangles (trackings : List Tracking)
    (rects : List Rectangle) : List ZoneResult × List (Int × Int) × Nat :=
  let st := trackingPass trackings rects
  (rects.map (fun r =>
      { zone_id := r.zone_id
        person_count := (st.1 r.zone_id).length
        status := statusOfCount (st.1 r.zone_id).length
        track_ids := st.1 r.zone_id }),
   st.2,
   (trackings.filter (fun t => t.track_id.isSome)).length)

/-- VideoProcessor._process_frame, video_processor.py line 374: the
ProcessingResult person_count is the length of the full trackings list,
untracked detections included. -/
def processResultPersonCount (trackings : List Tracking) : Nat :=
  trackings.length

/-! ## ZoneAnalyzer.analyze_detections_in_zones (zone_analyzer.py lines 24-104) -/

/-- Zone coordinates accepted by ZoneAnalyzer._is_point_in_zone: the rectangle
format or the legacy points format (zone_analyzer.py lines 117-163). -/
inductive ZoneCoordinates where
  | rect (x_min y_min x_max y_max : ℚ)
  | points (pts : List (ℚ × ℚ))
deriving DecidableEq, Repr

/-- ZoneAnalyzer._is_point_in_zone, zone_analyzer.py lines 117-163: direct
bounds test for the rectangle format; the legacy points format (at least two
points required, line 145) degrades to the bounding box of the points. -/
def is_point_in_zone (p : ℚ × ℚ) (zc : ZoneCoordinates) : Bool :=
  match zc with
  | .rect a b c d => decide (a ≤ p.1 ∧ p.1 ≤ c ∧ b ≤ p.2 ∧ p.2 ≤ d)
  | .points pts =>
    if pts.length < 2 then false
    else
      let xs := pts.map Prod.fst
      let ys := pts.map Prod.snd
      let xmin := xs.foldl min (xs.headD 0)
      let xmax := xs.foldl max (xs.headD 0)
      let ymin := ys.foldl min (ys.headD 0)
      let ymax := ys.foldl max (ys.headD 0)
      decide (xmin ≤ p.1 ∧ p.1 ≤ xmax ∧ ymin ≤ p.2 ∧ p.2 ≤ ymax)

/-- Zone dict consumed by analyze_detections_in_zones (id, coordinates). -/
structure ZAZone where
  id : Int
  coordinates : ZoneCoordinates
deriving DecidableEq, Repr

/-- Python set add on an insertion-ordered distinct list: occupancy sets in
analyze_detections_in_zones are Python sets (zone_analyzer.py line 49, 61). -/
def setAdd (l : List Int) (x : Int) : List Int :=
  if x ∈ l then l else l ++ [x]

/-- The tracking loop of analyze_detections_in_zones, zone_analyzer.py lines
52-66, over the zones already limited to the first 10 (line 42). -/
def zaPass (trackings : List Tracking) (zones : List ZAZone) :
    (Int → List Int) × List (Int × Int) :=
  trackings.foldl
    (fun st t =>
      match t.track_id with
      | none => st
      | some tid =>
        zones.foldl
          (fun st z =>
            if is_point_in_zone (get_person_center t) z.coordinates then
              (fun i => if i = z.id then setAdd (st.1 i) tid else st.1 i,
               st.2 ++ [(tid, z.id)])
            else st)
          st)
    (fun _ => [], [])

/-- analyze_detections_in_zones, zone_analyzer.py lines 24-104: zones are
limited to the first MAX_ZONES_PER_ANALYSIS = 10 (line 42); per-zone results
carry person_count = size of the occupancy set and the derived status
(lines 69-92). -/
def analyze_detections_in_zones (trackings : List Tracking)
    (zones : List ZAZone) : List ZoneResult :=
  let limited := zones.take 10
  let st := zaPass trackings limited
  limited.map (fun z =>
    { zone_id := z.id
      person_count := (st.1 z.id).length
      status := statusOfCount (st.1 z.id).length
      track_ids := st.1 z.id })

/-! ## VideoManager (video_service.py lines 238-386) -/

/-- Resource ceilings, video_service.py lines 241-243. -/
def MAX_STREAMS : Nat := 4

/-- Maximum zones per stream, video_service.py line 242. -/
def MAX_ZONES_PER_STREAM : Nat := 10

/-- Maximum registry-wide zones, video_service.py line 243. -/
def MAX_TOTAL_ZONES : Nat := 40

/-- VideoManager state: the streams dict as an insertion-ordered association
list from stream id to the zone list stored on the worker, plus the running
event (video_service.py lines 245-248).  A VideoStreamWorker stores
zones[:10] (line 59). -/
structure ManagerState where
  streams : List (String × List Rectangle)
  running : Bool
deriving DecidableEq, Repr

/-- Initial VideoManager state (lines 245-248): no streams, running set. -/
def managerInit : ManagerState :=
  { streams := [], running := true }

/-- Registry-wide zone total, video_service.py line 286:
sum of len(worker.zones) over registered workers. -/
def totalZones (streams : List (String × List Rectangle)) : Nat :=
  (streams.map (fun p => p.2.length)).sum

/-- VideoManager.add_stream, video_service.py lines 263-305: the guard chain
(running, stream ceiling, per-stream zone ceiling, registry-wide zone ceiling,
duplicate id) each rejects with no state change; on success the worker is
created with zones[:10] and registered. -/
def add_stream (st : ManagerState) (stream_id : String)
    (zones : List Rectangle) : ManagerState × Bool :=
  if st.running = false then (st, false)
  else if MAX_STREAMS ≤ st.streams.length then (st, false)
  else if MAX_ZONES_PER_STREAM < zones.length then (st, false)
  else if MAX_TOTAL_ZONES < totalZones st.streams + zones.length then (st, false)
  else if stream_id ∈ st.streams.map Prod.fst then (st, false)
  else ({ st with streams := st.streams ++ [(stream_id, zones.take 10)] }, true)

/-- VideoManager.remove_stream, video_service.py lines 307-324: missing id is
rejected, otherwise the entry is deleted. -/
def remove_stream (st : ManagerState) (stream_id : String) :
    ManagerState × Bool :=
  if stream_id ∈ st.streams.map Prod.fst then
    ({ st with streams := st.streams.filter (fun p => p.1 ≠ stream_id) }, true)
  else (st, false)

/-- VideoManager.shutdown, video_service.py lines 356-373: clears the running
event and empties the streams dict. -/
def manager_shutdown (_st : ManagerState) : ManagerState :=
  { streams := [], running := false }

/-- One mutating call on the VideoManager. -/
inductive ManagerOp where
  | add (stream_id : String) (zones : List Rectangle)
  | remove (stream_id : String)
  | shutdown
deriving Repr

/-- Apply one manager call, discarding the boolean result. -/
def managerStep (st : ManagerState) (op : ManagerOp) : ManagerState :=
  match op with
  | .add sid zs => (add_stream st sid zs).1
  | .remove sid => (remove_stream st sid).1
  | .shutdown => manager_shutdown st

/-- Apply a sequence of manager calls. -/
def managerRun (ops : List ManagerOp) : ManagerState :=
  ops.foldl managerStep managerInit

/-- The resource invariant of the spec: at most 4 streams, at most 10 zones
per stream, at most 40 zones registry-wide. -/
def managerInv (st : ManagerState) : Prop :=
  st.streams.length ≤ MAX_STREAMS ∧
  (∀ p ∈ st.streams, p.2.length ≤ MAX_ZONES_PER_STREAM) ∧
  totalZones st.streams ≤ MAX_TOTAL_ZONES

instance (st : ManagerState) : Decidable (managerInv st) := by
  unfold managerInv; infer_instance

/-! ## Drop-oldest bounded queue
(video_service.py lines 158-171, video_processor.py lines 299-307, 331-337) -/

/-- The drop-oldest push pattern shared by the per-stream frame queue, the
processing queue and the results queue: if the queue is full, pop the oldest
element, then put the new one. -/
def queuePush {α : Type} (cap : Nat) (q : List α) (x : α) : List α :=
  if cap ≤ q.length then q.tail ++ [x] else q ++ [x]

/-- Push a sequence of items in order. -/
def queuePushAll {α : Type} (cap : Nat) (q : List α) (xs : List α) : List α :=
  xs.foldl (queuePush cap) q

/-! ## VideoStreamWorker capture loop (video_service.py lines 133-178) -/

/-- Mutable counters of a VideoStreamWorker relevant to frame pacing and
numbering (video_service.py lines 64-70). -/
structure CaptureState where
  last_frame_time : ℚ
  frame_count : Nat
  last_fps_update : ℚ
  fps_actual : ℚ
deriving DecidableEq, Repr

/-- VideoStreamWorker._update_fps_tracking, video_service.py lines 173-178:
once a second, recompute fps_actual and reset frame_count to zero. -/
def update_fps_tracking (st : CaptureState) (t : ℚ) : CaptureState :=
  if 1 ≤ t - st.last_fps_update then
    { st with fps_actual := (st.frame_count : ℚ) / (t - st.last_fps_update)
              last_fps_update := t
              frame_count := 0 }
  else st

/-- One successful cap.read() at time t inside _process_frames, video_service.py
lines 138-171: pacing may skip the frame (lines 147-150); an accepted frame
bumps frame_count, runs fps tracking, and is queued with frame_number equal to
the frame_count field read after fps tracking ran (line 168). -/
def captureRead (interval : ℚ) (st : CaptureState) (t : ℚ) :
    CaptureState × Option Nat :=
  if 0 < interval ∧ t - st.last_frame_time < interval then (st, none)
  else
    let st1 := { st with last_frame_time := t, frame_count := st.frame_count + 1 }
    let st2 := update_fps_tracking st1 t
    (st2, some st2.frame_count)

/-- The frame numbers pushed into the per-stream queue when frames are read at
the given times, in order. -/
def queuedFrameNumbers (interval : ℚ) (st : CaptureState) (reads : List ℚ) :
    List Nat :=
  (reads.foldl
    (fun acc t =>
      let r := captureRead interval acc.1 t
      (r.1, acc.2 ++ r.2.toList))
    (st, [])).2

/-- Worker counters at construction time t0 (video_service.py lines 64-70):
last_frame_time 0, frame_count 0, last_fps_update t0. -/
def captureInit (t0 : ℚ) : CaptureState :=
  { last_frame_time := 0, frame_count := 0, last_fps_update := t0, fps_actual := 0 }

/-! ## VideoStreamWorker reconnect and run loop
(video_service.py lines 72-97 and 180-196) -/

/-- The fixed backoff schedule, video_service.py line 182. -/
def backoffDelays : List Nat := [1, 2, 4, 8, 16, 32, 60]

/-- How one call of _reconnect_with_backoff ends. -/
inductive BackoffOutcome where
  | stopped
  | reconnected
  | exhausted
deriving DecidableEq, Repr

/-- The loop of _reconnect_with_backoff, video_service.py lines 184-196, over
the remaining delays; stop and connect are oracles indexed by the attempt
number within this call.  Each iteration checks the stop event, sleeps the
scheduled delay, then attempts one connect.  Returns the performed sleeps in
order and the outcome. -/
def backoffGo (stop connect : Nat → Bool) : Nat → List Nat →
    List Nat × BackoffOutcome
  | _, [] => ([], .exhausted)
  | i, d :: ds =>
    if stop i then ([], .stopped)
    else if connect i then ([d], .reconnected)
    else
      let r := backoffGo stop connect (i + 1) ds
      (d :: r.1, r.2)

/-- VideoStreamWorker._reconnect_with_backoff, video_service.py lines 180-196. -/
def reconnect_with_backoff (stop connect : Nat → Bool) :
    List Nat × BackoffOutcome :=
  backoffGo stop connect 0 backoffDelays

/-- Stream status after _reconnect_with_backoff returns: exhausting the
schedule sets ERROR (line 196), a successful _connect set CONNECTED (line 123),
an early stop leaves the status as it was. -/
def statusAfterBackoff (o : BackoffOutcome) (prev : String) : String :=
  match o with
  | .exhausted => "error"
  | .reconnected => "connected"
  | .stopped => prev

/-- The run loop of VideoStreamWorker.run, video_service.py lines 76-94, for a
worker with auto_reconnect enabled whose stop event is never set, driven by a
connect oracle indexed by the global count of _connect calls.  fuel bounds the
number of loop iterations modelled; the boolean is true when the loop exited
on its own within the fuel.  Returns the sleeps performed by backoff calls. -/
def runLoopNoStop (connect : Nat → Bool) : Nat → Nat → List Nat × Bool
  | 0, _ => ([], false)
  | fuel + 1, a =>
    if connect a then
      runLoopNoStop connect fuel (a + 1)
    else
      let b := backoffGo (fun _ => false) (fun i => connect (a + 1 + i)) 0
        backoffDelays
      let rest := runLoopNoStop connect fuel (a + 1 + b.1.length)
      (b.1 ++ rest.1, rest.2)

/-! ## Status history (video_processor.py lines 162-180,
zone_analyzer.py lines 183-212, 341-347) -/

/-- One zone status history entry (status label and timestamp). -/
structure StatusEntry where
  status : String
  timestamp : ℚ
deriving DecidableEq, Repr

/-- Status of the last history entry, if any (history[-1] access guarded by
the emptiness test). -/
def lastStatus (h : List StatusEntry) : Option String :=
  h.getLast?.map (fun e => e.status)

/-- RectangleZoneAnalyzer._update_zone_status_history, video_processor.py
lines 162-180: append only on change, then keep the last 1000 entries. -/
def rectUpdateStatusHistory (h : List StatusEntry) (s : String) (ts : ℚ) :
    List StatusEntry :=
  if lastStatus h ≠ some s then
    let h2 := h ++ [{ status := s, timestamp := ts }]
    if 1000 < h2.length then h2.drop (h2.length - 1000) else h2
  else h

/-- ZoneAnalyzer status history entry, zone_analyzer.py lines 196-204, which
also records the person count. -/
structure ZAStatusEntry where
  status : String
  timestamp : ℚ
  person_count : Nat
deriving DecidableEq, Repr

/-- Status of the last ZoneAnalyzer history entry, if any. -/
def zaLastStatus (h : List ZAStatusEntry) : Option String :=
  h.getLast?.map (fun e => e.status)

/-- ZoneAnalyzer._update_zone_status_history, zone_analyzer.py lines 183-212:
append only on change, then drop entries older than 24 hours (86400 seconds)
before the new timestamp. -/
def zaUpdateStatusHistory (h : List ZAStatusEntry) (s : String) (pc : Nat)
    (ts : ℚ) : List ZAStatusEntry :=
  if zaLastStatus h ≠ some s then
    (h ++ [({ status := s, timestamp := ts, person_count := pc } : ZAStatusEntry)]).filter
      (fun e => ts - 86400 < e.timestamp)
  else h

/-- The zone-status part of ZoneAnalyzer.clear_old_tracking_data,
zone_analyzer.py lines 341-347: keep entries newer than the cutoff. -/
def zaClearOld (cutoff : ℚ) (h : List ZAStatusEntry) : List ZAStatusEntry :=
  h.filter (fun e => cutoff < e.timestamp)

/-- One mutation of a ZoneAnalyzer zone status history. -/
inductive ZAHistOp where
  | update (s : String) (pc : Nat) (ts : ℚ)
  | clearOld (cutoff : ℚ)
deriving Repr

/-- Apply one history mutation. -/
def zaHistStep (h : List ZAStatusEntry) (op : ZAHistOp) : List ZAStatusEntry :=
  match op with
  | .update s pc ts => zaUpdateStatusHistory h s pc ts
  | .clearOld c => zaClearOld c h

/-- Apply a sequence of history mutations starting from the empty history
lazily created on first use (zone_analyzer.py lines 187-188). -/
def zaHistRun (ops : List ZAHistOp) : List ZAStatusEntry :=
  ops.foldl zaHistStep []

/-- Timestamps of the update calls in a mutation sequence, in order: analysis
passes stamp entries with the current clock, so these are nondecreasing in any
real execution. -/
def updTimes (ops : List ZAHistOp) : List ℚ :=
  ops.filterMap (fun op =>
    match op with
    | .update _ _ ts => some ts
    | .clearOld _ => none)

/-- Well-formedness of a ZoneAnalyzer status history relative to the last
update instant t: no two consecutive entries share a status, timestamps are
nondecreasing, and every entry is stamped at or before t.  This is the
inductive invariant carried through update and prune operations. -/
def zaGood (t : ℚ) (h : List ZAStatusEntry) : Prop :=
  h.Chain' (fun a b => a.status ≠ b.status) ∧
  h.Pairwise (fun a b => a.timestamp ≤ b.timestamp) ∧
  ∀ e ∈ h, e.timestamp ≤ t

/-- Apply a sequence of rect-analyzer status updates (status, timestamp)
starting from the empty history (video_processor.py lines 164-168). -/
def rectHistRun (ups : List (String × ℚ)) : List StatusEntry :=
  ups.foldl (fun h u => rectUpdateStatusHistory h u.1 u.2) []

/-- No two consecutive entries share a status. -/
def noAdjacentDup (h : List StatusEntry) : Prop :=
  h.Chain' (fun a b => a.status ≠ b.status)

instance (h : List StatusEntry) : Decidable (noAdjacentDup h) := by
  unfold noAdjacentDup; infer_instance

/-- No two consecutive ZoneAnalyzer entries share a status. -/
def zaNoAdjacentDup (h : List ZAStatusEntry) : Prop :=
  h.Chain' (fun a b => a.status ≠ b.status)

instance (h : List ZAStatusEntry) : Decidable (zaNoAdjacentDup h) := by
  unfold zaNoAdjacentDup; infer_instance

/-! ## RectangleZoneAnalyzer.get_zone_efficiency
(video_processor.py lines 182-241) -/

/-- Rounding to two decimals, modelling the round(x, 2) calls of
video_processor.py lines 236-240 (tie behaviour of the float round is
immaterial to the verified properties). -/
def round2 (q : ℚ) : ℚ :=
  (round (q * 100) : ℚ) / 100

/-- The result dict of get_zone_efficiency.  The total_minutes key is optional
because the two empty-history returns (video_processor.py lines 186-193 and
202-209) omit it, while the computed return (lines 233-241) includes it. -/
structure EffResult where
  efficiency_percentage : ℚ
  work_minutes : ℚ
  idle_minutes : ℚ
  other_minutes : ℚ
  total_minutes : Option ℚ
deriving DecidableEq, Repr

/-- Per-status durations in minutes of the loop at video_processor.py lines
214-228: each entry owns the gap to the next entry, the last entry owns the
gap to now; the gap lands in the work, idle or other accumulator according to
the status label (any other label is dropped, matching the if chain at lines
223-228). -/
def addDuration (acc : ℚ × ℚ × ℚ) (s : String) (d : ℚ) : ℚ × ℚ × ℚ :=
  if s = "work" then (acc.1 + d, acc.2.1, acc.2.2)
  else if s = "idle" then (acc.1, acc.2.1 + d, acc.2.2)
  else if s = "other" then (acc.1, acc.2.1, acc.2.2 + d)
  else acc

/-- Summed (work, idle, other) durations in minutes over the filtered history,
with now closing the last entry (video_processor.py lines 212-228); addition
is commutative, so summing entry by entry from the right agrees with the
accumulation order of the source loop. -/
def statusDurations (now : ℚ) : List StatusEntry → ℚ × ℚ × ℚ
  | [] => (0, 0, 0)
  | [e] => addDuration (0, 0, 0) e.status ((now - e.timestamp) / 60)
  | e :: e2 :: rest =>
    addDuration (statusDurations now (e2 :: rest)) e.status
      ((e2.timestamp - e.timestamp) / 60)

/-- The recent_history filter of get_zone_efficiency, video_processor.py
line 199: keep entries strictly newer than the cutoff. -/
def effRecent (history : List StatusEntry) (cutoff : ℚ) : List StatusEntry :=
  history.filter (fun e => cutoff < e.timestamp)

/-- RectangleZoneAnalyzer.get_zone_efficiency, video_processor.py lines
182-241, over the stored history of one (stream, zone): entries at or before
the cutoff are filtered out (line 199); an empty filtered history (including a
stream or zone with no stored history at all) returns zeros without a
total_minutes key; otherwise durations are summed and efficiency is
work over total times 100, zero when the total is not positive. -/
def get_zone_efficiency (history : List StatusEntry) (cutoff now : ℚ) :
    EffResult :=
  let recent := effRecent history cutoff
  if recent.isEmpty then
    { efficiency_percentage := 0, work_minutes := 0, idle_minutes := 0,
      other_minutes := 0, total_minutes := none }
  else
    let d := statusDurations now recent
    let total := d.1 + d.2.1 + d.2.2
    let eff := if 0 < total then d.1 / total * 100 else 0
    { efficiency_percentage := round2 eff
      work_minutes := round2 d.1
      idle_minutes := round2 d.2.1
      other_minutes := round2 d.2.2
      total_minutes := some (round2 total) }

/-! ## Results queue consumption (video_processor.py lines 396-415) -/

/-- A ProcessingResult restricted to the fields the retrieval path inspects. -/
structure PResult where
  stream_id : String
  frame_number : Nat
deriving DecidableEq, Repr

/-- The pop loop of VideoProcessor.get_latest_results, video_processor.py
lines 396-409: pop from the results queue while fewer than max_results were
taken and the queue is nonempty; returns the popped results in order and the
remaining queue. -/
def popLoop : List PResult → Nat → List PResult × List PResult
  | q, 0 => ([], q)
  | [], _ + 1 => ([], [])
  | r :: q, n + 1 =>
    let rest := popLoop q n
    (r :: rest.1, rest.2)

/-- VideoProcessor.get_latest_results, video_processor.py lines 396-409. -/
def get_latest_results (q : List PResult) (max_results : Nat) :
    List PResult × List PResult :=
  popLoop q max_results

/-- VideoProcessor.get_stream_results, video_processor.py lines 411-415:
over-fetch max_results * 5 from the shared queue, keep only the requested
stream, return the first max_results of those; everything popped stays popped. -/
def get_stream_results (q : List PResult) (stream_id : String)
    (max_results : Nat) : List PResult × List PResult :=
  let p := get_latest_results q (max_results * 5)
  ((p.1.filter (fun r => r.stream_id = stream_id)).take max_results, p.2)

/-! ## Concrete instances used by witness theorems -/

/-- A tracked person centered at (55, 55). -/
def wTrack5 : Tracking :=
  { bbox := { x1 := 50, y1 := 50, x2 := 60, y2 := 60 }, track_id := some 5 }

/-- An untracked detection centered at (15, 15). -/
def wUntracked : Tracking :=
  { bbox := { x1 := 10, y1 := 10, x2 := 20, y2 := 20 }, track_id := none }

/-- The rectangle zone of spec Scenario B. -/
def wRect1 : Rectangle :=
  { x_min := 0, y_min := 0, x_max := 100, y_max := 100, zone_id := 1, name := "zone1" }

/-- The same zone in ZoneAnalyzer format. -/
def wZaZone1 : ZAZone := { id := 1, coordinates := .rect 0 0 100 100 }

/-- The zone result produced for wRect1 with wTrack5 inside. -/
def wZoneResult : ZoneResult :=
  { zone_id := 1, person_count := 1, status := "work", track_ids := [5] }

/-- A two-entry status history: idle from t = 0 s, work from t = 3600 s. -/
def wEffHistory : List StatusEntry :=
  [{ status := "idle", timestamp := 0 }, { status := "work", timestamp := 3600 }]

/-- A one-entry history whose entry is older than the cutoff used with it. -/
def wOldHistory : List StatusEntry := [{ status := "work", timestamp := 0 }]

/-- A mixed manager call sequence. -/
def wManagerOps : List ManagerOp :=
  [.add "s1" (List.replicate 10 wRect1), .add "s2" [wRect1], .remove "s2",
   .add "s2" [], .shutdown, .add "s3" []]

/-- A manager already holding four streams. -/
def wFullManager : ManagerState :=
  { streams := [("s1", []), ("s2", []), ("s3", []), ("s4", [])], running := true }

/-- A rect-analyzer status update sequence with a repeated status. -/
def wHistUps : List (String × ℚ) :=
  [("idle", 0), ("work", 60), ("work", 120), ("idle", 180)]

/-- A ZoneAnalyzer history mutation sequence with a repeated status and an
interleaved prune. -/
def wZaOps : List ZAHistOp :=
  [.update "idle" 0 0, .update "work" 1 60, .clearOld 30, .update "work" 1 120,
   .update "idle" 0 180]

/-- A results queue holding frames of two streams. -/
def wResultsQueue : List PResult :=
  [{ stream_id := "a", frame_number := 1 }, { stream_id := "b", frame_number := 2 },
   { stream_id := "a", frame_number := 3 }]

/-! ## Theorems.  Helper lemmas come first, then one theorem per claim with
its witness. -/

/-- The status derivation satisfies the 0/1/many mapping and takes no other
value. -/
theorem statusOfCount_cases (n : Nat) :
    (n = 0 → statusOfCount n = "idle") ∧ (n = 1 → statusOfCount n = "work") ∧
    (2 ≤ n → statusOfCount n = "other") ∧
    (statusOfCount n = "idle" ∨ statusOfCount n = "work" ∨
      statusOfCount n = "other") := by
  unfold statusOfCount
  refine ⟨fun h => by simp [h], fun h => by simp [h], fun h => ?_, ?_⟩
  · have h0 : ¬ n = 0 := by omega
    have h1 : ¬ n = 1 := by omega
    simp [h0, h1]
  · by_cases h0 : n = 0
    · simp [h0]
    · by_cases h1 : n = 1 <;> simp [h0, h1]

/-- Every zone result of the rect analyzer derives its status from its
occupant count through statusOfCount. -/
theorem status_mem_rect (trackings : List Tracking) (rects : List Rectangle)
    (zr : ZoneResult)
    (h : zr ∈ (analyze_trackings_in_rectangles trackings rects).1) :
    zr.status = statusOfCount zr.person_count := by
  simp only [analyze_trackings_in_rectangles, List.mem_map] at h
  obtain ⟨r, _, rfl⟩ := h
  rfl

/-- Every zone result of the ZoneAnalyzer derives its status from its
occupant count through statusOfCount. -/
theorem status_mem_za (trackings : List Tracking) (zones : List ZAZone)
    (zr : ZoneResult) (h : zr ∈ analyze_detections_in_zones trackings zones) :
    zr.status = statusOfCount zr.person_count := by
  simp only [analyze_detections_in_zones, List.mem_map] at h
  obtain ⟨z, _, rfl⟩ := h
  rfl

/-- C1: for every analysis pass (of either analyzer) and every zone, the
derived status is idle exactly when the occupant count is 0, work when it is
1, other when it is 2 or more, and no other status value is produced. -/
theorem C1_zone_status (trackings : List Tracking) (rects : List Rectangle)
    (zones : List ZAZone) (zr : ZoneResult)
    (h : zr ∈ (analyze_trackings_in_rectangles trackings rects).1 ∨
         zr ∈ analyze_detections_in_zones trackings zones) :
    (zr.person_count = 0 → zr.status = "idle") ∧
    (zr.person_count = 1 → zr.status = "work") ∧
    (2 ≤ zr.person_count → zr.status = "other") ∧
    (zr.status = "idle" ∨ zr.status = "work" ∨ zr.status = "other") := by
  have hst : zr.status = statusOfCount zr.person_count := by
    rcases h with h | h
    · exact status_mem_rect _ _ _ h
    · exact status_mem_za _ _ _ h
  rw [hst]
  exact statusOfCount_cases zr.person_count

/-- Witness for C1 at the Scenario B inputs. -/
theorem C1_zone_status_witness :
    (wZoneResult ∈ (analyze_trackings_in_rectangles [wTrack5, wUntracked] [wRect1]).1 ∨
      wZoneResult ∈ analyze_detections_in_zones [wTrack5, wUntracked] [wZaZone1]) ∧
    ((wZoneResult.person_count = 0 → wZoneResult.status = "idle") ∧
     (wZoneResult.person_count = 1 → wZoneResult.status = "work") ∧
     (2 ≤ wZoneResult.person_count → wZoneResult.status = "other") ∧
     (wZoneResult.status = "idle" ∨ wZoneResult.status = "work" ∨
       wZoneResult.status = "other")) := by
  have hmem : wZoneResult ∈
      (analyze_trackings_in_rectangles [wTrack5, wUntracked] [wRect1]).1 := by
    simp only [analyze_trackings_in_rectangles, trackingPass, is_point_in_rectangle,
      get_person_center, wTrack5, wUntracked, wRect1, wZoneResult, List.foldl_cons,
      List.foldl_nil, List.map_cons, List.map_nil, statusOfCount]
    norm_num
  exact ⟨Or.inl hmem,
    C1_zone_status [wTrack5, wUntracked] [wRect1] [wZaZone1] wZoneResult
      (Or.inl hmem)⟩

/-- Dropping an untracked detection leaves the occupancy and history events of
an analysis pass unchanged. -/
theorem trackingPass_untracked (ts1 ts2 : List Tracking) (t : Tracking)
    (rects : List Rectangle) (h : t.track_id = none) :
    trackingPass (ts1 ++ t :: ts2) rects = trackingPass (ts1 ++ ts2) rects := by
  unfold trackingPass
  rw [List.foldl_append, List.foldl_append, List.foldl_cons]
  congr 1
  simp [h]

/-- C9: a detection with no track identifier contributes to no occupant set,
to no movement-history append, and not to total_persons_detected, but is still
counted in the ProcessingResult person count. -/
theorem C9_untracked_detection (ts1 ts2 : List Tracking) (t : Tracking)
    (rects : List Rectangle) (h : t.track_id = none) :
    (analyze_trackings_in_rectangles (ts1 ++ t :: ts2) rects).1 =
      (analyze_trackings_in_rectangles (ts1 ++ ts2) rects).1 ∧
    (analyze_trackings_in_rectangles (ts1 ++ t :: ts2) rects).2.1 =
      (analyze_trackings_in_rectangles (ts1 ++ ts2) rects).2.1 ∧
    (analyze_trackings_in_rectangles (ts1 ++ t :: ts2) rects).2.2 =
      (analyze_trackings_in_rectangles (ts1 ++ ts2) rects).2.2 ∧
    processResultPersonCount (ts1 ++ t :: ts2) =
      processResultPersonCount (ts1 ++ ts2) + 1 := by
  have hp := trackingPass_untracked ts1 ts2 t rects h
  refine ⟨?_, ?_, ?_, ?_⟩
  · simp only [analyze_trackings_in_rectangles, hp]
  · simp only [analyze_trackings_in_rectangles, hp]
  · simp only [analyze_trackings_in_rectangles]
    simp [List.filter_append, List.filter_cons, h]
  · simp only [processResultPersonCount, List.length_append, List.length_cons]
    omega

/-- Witness for C9: the untracked detection next to one tracked person. -/
theorem C9_untracked_detection_witness :
    wUntracked.track_id = none ∧
    ((analyze_trackings_in_rectangles ([wTrack5] ++ wUntracked :: []) [wRect1]).1 =
       (analyze_trackings_in_rectangles ([wTrack5] ++ []) [wRect1]).1 ∧
     (analyze_trackings_in_rectangles ([wTrack5] ++ wUntracked :: []) [wRect1]).2.1 =
       (analyze_trackings_in_rectangles ([wTrack5] ++ []) [wRect1]).2.1 ∧
     (analyze_trackings_in_rectangles ([wTrack5] ++ wUntracked :: []) [wRect1]).2.2 =
       (analyze_trackings_in_rectangles ([wTrack5] ++ []) [wRect1]).2.2 ∧
     processResultPersonCount ([wTrack5] ++ wUntracked :: []) =
       processResultPersonCount ([wTrack5] ++ []) + 1) :=
  ⟨rfl, C9_untracked_detection [wTrack5] [] wUntracked [wRect1] rfl⟩

/-- C7 counterexample: with no history in the window the source returns a
result whose total-minutes field is absent, not a zero total. -/
theorem C7_counterexample :
    (get_zone_efficiency [] 0 100).efficiency_percentage = 0 ∧
    (get_zone_efficiency [] 0 100).work_minutes = 0 ∧
    (get_zone_efficiency [] 0 100).idle_minutes = 0 ∧
    (get_zone_efficiency [] 0 100).other_minutes = 0 ∧
    (get_zone_efficiency [] 0 100).total_minutes = none ∧
    ¬ (get_zone_efficiency [] 0 100).total_minutes = some 0 := by
  decide

/-- C7 amended: with no status-history entry inside the window,
get_zone_efficiency returns, without error, zero efficiency and zero work,
idle and other minutes, and omits the total-minutes field. -/
theorem C7_empty_window (history : List StatusEntry) (cutoff now : ℚ)
    (h : effRecent history cutoff = []) :
    get_zone_efficiency history cutoff now =
      { efficiency_percentage := 0, work_minutes := 0, idle_minutes := 0,
        other_minutes := 0, total_minutes := none } := by
  simp only [get_zone_efficiency, h]
  rfl

/-- Witness for C7 amended: one entry, strictly older than the cutoff. -/
theorem C7_empty_window_witness :
    effRecent wOldHistory 5 = [] ∧
    get_zone_efficiency wOldHistory 5 10 =
      { efficiency_percentage := 0, work_minutes := 0, idle_minutes := 0,
        other_minutes := 0, total_minutes := none } :=
  ⟨by decide, C7_empty_window wOldHistory 5 10 (by decide)⟩

/-- The pop loop of get_latest_results takes the queue prefix and leaves the
suffix. -/
theorem popLoop_eq : ∀ (q : List PResult) (n : Nat),
    popLoop q n = (q.take n, q.drop n)
  | _, 0 => by simp [popLoop]
  | [], n + 1 => by simp [popLoop]
  | r :: q, n + 1 => by
    have h := popLoop_eq q n
    simp [popLoop, h]

/-- C10: get_stream_results pops the first max_results * 5 queue entries,
returns only those of the requested stream (at most max_results of them), and
the popped entries of other streams are neither returned nor put back: the
queue keeps exactly the unpopped suffix. -/
theorem C10_stream_results (q : List PResult) (sid : String) (n : Nat)
    (r : PResult) (hr : r ∈ (get_stream_results q sid n).1) :
    (get_stream_results q sid n).1 =
      ((q.take (n * 5)).filter (fun x => x.stream_id = sid)).take n ∧
    (get_stream_results q sid n).2 = q.drop (n * 5) ∧
    r.stream_id = sid := by
  unfold get_stream_results get_latest_results at hr ⊢
  rw [popLoop_eq] at hr ⊢
  refine ⟨rfl, rfl, ?_⟩
  have h2 : r ∈ (q.take (n * 5)).filter (fun x => decide (x.stream_id = sid)) :=
    List.take_subset _ _ hr
  have h3 := (List.mem_filter.mp h2).2
  simpa using h3

/-- Witness for C10 on a three-element queue of two streams. -/
theorem C10_stream_results_witness :
    ({ stream_id := "a", frame_number := 1 } : PResult) ∈
      (get_stream_results wResultsQueue "a" 1).1 ∧
    ((get_stream_results wResultsQueue "a" 1).1 =
      ((wResultsQueue.take (1 * 5)).filter (fun x => x.stream_id = "a")).take 1 ∧
     (get_stream_results wResultsQueue "a" 1).2 = wResultsQueue.drop (1 * 5) ∧
     ({ stream_id := "a", frame_number := 1 } : PResult).stream_id = "a") :=
  ⟨by decide,
   C10_stream_results wResultsQueue "a" 1 { stream_id := "a", frame_number := 1 }
     (by decide)⟩

/-- One drop-oldest push never grows a queue past its capacity. -/
theorem queuePush_length_le {α : Type} (cap : Nat) (q : List α) (x : α)
    (hcap : 0 < cap) (h : q.length ≤ cap) : (queuePush cap q x).length ≤ cap := by
  unfold queuePush
  split_ifs with hf
  · simp only [List.length_append, List.length_tail, List.length_cons,
      List.length_nil]
    omega
  · simp only [List.length_append, List.length_cons, List.length_nil]
    omega

/-- Closed form of a push sequence: the queue keeps the newest cap elements of
the pushed stream, in push order. -/
theorem queuePushAll_eq {α : Type} (cap : Nat) (hcap : 0 < cap) :
    ∀ (xs q : List α), q.length ≤ cap →
      queuePushAll cap q xs = (q ++ xs).drop (q.length + xs.length - cap) := by
  intro xs
  induction xs with
  | nil =>
    intro q hq
    simp only [queuePushAll, List.foldl_nil, List.append_nil, List.length_nil,
      Nat.add_zero]
    have h0 : q.length - cap = 0 := by omega
    rw [h0, List.drop_zero]
  | cons x xs ih =>
    intro q hq
    have hstep : queuePushAll cap q (x :: xs) =
        queuePushAll cap (queuePush cap q x) xs := by
      simp [queuePushAll]
    rw [hstep]
    by_cases hf : cap ≤ q.length
    · have hql : q.length = cap := le_antisymm hq hf
      have hne : q ≠ [] := by
        intro hnil
        rw [hnil] at hql
        simp at hql
        omega
      have hpush : queuePush cap q x = q.tail ++ [x] := by
        simp [queuePush, hf]
      have htl : (q.tail ++ [x]).length ≤ cap := by
        simp only [List.length_append, List.length_tail, List.length_cons,
          List.length_nil]
        omega
      rw [hpush, ih _ htl]
      obtain ⟨a, q', rfl⟩ := List.exists_cons_of_ne_nil hne
      simp only [List.tail_cons]
      have h1 : (q' ++ [x]).length + xs.length - cap = xs.length := by
        simp only [List.length_append, List.length_cons, List.length_nil]
        simp only [List.length_cons] at hql
        omega
      have h2 : (a :: q').length + (x :: xs).length - cap = xs.length + 1 := by
        simp only [List.length_cons] at hql ⊢
        omega
      rw [h1, h2]
      simp [List.append_assoc]
    · have hpush : queuePush cap q x = q ++ [x] := by
        simp [queuePush, hf]
      have hlen : (q ++ [x]).length ≤ cap := by
        simp only [List.length_append, List.length_cons, List.length_nil]
        omega
      rw [hpush, ih _ hlen]
      have h3 : (q ++ [x]).length + xs.length - cap =
          q.length + (x :: xs).length - cap := by
        simp only [List.length_append, List.length_cons, List.length_nil]
        omega
      rw [h3, List.append_assoc]
      simp

/-- C3: pushing cap + 1 items into an empty drop-oldest queue of capacity cap
leaves exactly cap items, the remaining items in push order with the first
pushed item absent; and no push ever exceeds the capacity. -/
theorem C3_bounded_queue {α : Type} (cap : Nat) (xs q : List α) (x x0 : α)
    (hcap : 0 < cap) (hlen : xs.length = cap + 1) (hq : q.length ≤ cap)
    (hx0 : xs.head? = some x0) (hnd : xs.Nodup) :
    queuePushAll cap [] xs = xs.drop 1 ∧
    (queuePushAll cap [] xs).length = cap ∧
    x0 ∉ queuePushAll cap [] xs ∧
    (queuePush cap q x).length ≤ cap := by
  have h1 : ([] : List α).length + xs.length - cap = 1 := by
    simp only [List.length_nil, hlen]
    omega
  have he : queuePushAll cap [] xs = xs.drop 1 := by
    rw [queuePushAll_eq cap hcap xs [] (by simp), h1]
    simp
  refine ⟨he, ?_, ?_, queuePush_length_le cap q x hcap hq⟩
  · rw [he]
    simp only [List.length_drop, hlen]
    omega
  · rw [he]
    cases xs with
    | nil => simp at hx0
    | cons a t =>
      simp only [List.head?_cons, Option.some.injEq] at hx0
      subst hx0
      simp only [List.drop_succ_cons, List.drop_zero]
      exact (List.nodup_cons.mp hnd).1

/-- Witness for C3: a queue of capacity 3 receiving 4 distinct items. -/
theorem C3_bounded_queue_witness :
    (0 < 3 ∧ ([10, 20, 30, 40] : List Nat).length = 3 + 1 ∧
     ([7, 8, 9] : List Nat).length ≤ 3 ∧
     ([10, 20, 30, 40] : List Nat).head? = some 10 ∧
     ([10, 20, 30, 40] : List Nat).Nodup) ∧
    (queuePushAll 3 [] [10, 20, 30, 40] = ([10, 20, 30, 40] : List Nat).drop 1 ∧
     (queuePushAll 3 ([] : List Nat) [10, 20, 30, 40]).length = 3 ∧
     10 ∉ queuePushAll 3 ([] : List Nat) [10, 20, 30, 40] ∧
     (queuePush 3 ([7, 8, 9] : List Nat) 11).length ≤ 3) :=
  ⟨by decide,
   C3_bounded_queue 3 [10, 20, 30, 40] [7, 8, 9] 11 10 (by decide) (by decide)
     (by decide) (by decide) (by decide)⟩

/-- The registry-wide zone total is additive over concatenation. -/
theorem totalZones_append (s1 s2 : List (String × List Rectangle)) :
    totalZones (s1 ++ s2) = totalZones s1 + totalZones s2 := by
  simp [totalZones]

/-- Every manager call preserves the resource invariant. -/
theorem managerInv_step (st : ManagerState) (op : ManagerOp)
    (h : managerInv st) : managerInv (managerStep st op) := by
  obtain ⟨h1, h2, h3⟩ := h
  cases op with
  | add sid zs =>
    simp only [managerStep, add_stream]
    split_ifs with g1 g2 g3 g4 g5
    · exact ⟨h1, h2, h3⟩
    · exact ⟨h1, h2, h3⟩
    · exact ⟨h1, h2, h3⟩
    · exact ⟨h1, h2, h3⟩
    · exact ⟨h1, h2, h3⟩
    · refine ⟨?_, ?_, ?_⟩
      · simp only [List.length_append, List.length_cons, List.length_nil]
        simp only [MAX_STREAMS] at g2 ⊢
        omega
      · intro p hp
        rcases List.mem_append.mp hp with hp | hp
        · exact h2 p hp
        · simp only [List.mem_singleton] at hp
          subst hp
          simp only [List.length_take, MAX_ZONES_PER_STREAM]
          omega
      · rw [totalZones_append]
        have htk : (zs.take 10).length ≤ zs.length := by
          simp only [List.length_take]
          omega
        simp only [totalZones, List.map_cons, List.map_nil, List.sum_cons,
          List.sum_nil] at htk ⊢
        simp only [MAX_TOTAL_ZONES] at g4 ⊢
        simp only [totalZones] at h3 g4
        omega
  | remove sid =>
    simp only [managerStep, remove_stream]
    split_ifs with g
    · refine ⟨?_, ?_, ?_⟩
      · exact le_trans (List.length_filter_le _ _) h1
      · intro p hp
        exact h2 p (List.mem_of_mem_filter hp)
      · have hsub : (st.streams.filter (fun p => p.1 ≠ sid)).Sublist st.streams :=
          List.filter_sublist _
        have hmap := hsub.map (fun p => p.2.length)
        have hsum := List.Sublist.sum_le_sum hmap (fun a _ => Nat.zero_le a)
        exact le_trans hsum h3
    · exact ⟨h1, h2, h3⟩
  | shutdown =>
    exact ⟨Nat.zero_le _, fun p hp => by simp [managerStep, manager_shutdown] at hp,
      Nat.zero_le _⟩

/-- Any sequence of manager calls starting from the fresh manager keeps the
resource invariant. -/
theorem managerRun_inv (ops : List ManagerOp) : managerInv (managerRun ops) := by
  have hgen : ∀ (l : List ManagerOp) (st : ManagerState), managerInv st →
      managerInv (l.foldl managerStep st) := by
    intro l
    induction l with
    | nil => exact fun st h => h
    | cons op l ih => exact fun st h => ih _ (managerInv_step st op h)
  exact hgen ops managerInit ⟨Nat.zero_le _, fun p hp => by simp [managerInit] at hp,
    Nat.zero_le _⟩

/-- C2: over every sequence of manager calls the registry never exceeds 4
streams, 10 zones on one stream or 40 zones in total, and an add_stream call
that fails (shutting down, stream ceiling, per-stream zone ceiling, total zone
ceiling, or duplicate id) returns false and leaves the state exactly as it
was. -/
theorem C2_add_stream (ops : List ManagerOp) (st : ManagerState) (sid : String)
    (zs : List Rectangle) :
    managerInv (managerRun ops) ∧
    ((add_stream st sid zs).2 = false → (add_stream st sid zs).1 = st) ∧
    (st.running = false → (add_stream st sid zs).2 = false) ∧
    (MAX_STREAMS ≤ st.streams.length → (add_stream st sid zs).2 = false) ∧
    (MAX_ZONES_PER_STREAM < zs.length → (add_stream st sid zs).2 = false) ∧
    (MAX_TOTAL_ZONES < totalZones st.streams + zs.length →
      (add_stream st sid zs).2 = false) ∧
    (sid ∈ st.streams.map Prod.fst → (add_stream st sid zs).2 = false) := by
  refine ⟨managerRun_inv ops, ?_, ?_, ?_, ?_, ?_, ?_⟩
  · unfold add_stream
    split_ifs <;> intro h
    · rfl
    · rfl
    · rfl
    · rfl
    · rfl
    · simp at h
  · intro h
    unfold add_stream
    simp [h]
  · intro h
    unfold add_stream
    split_ifs <;> rfl
  · intro h
    unfold add_stream
    split_ifs <;> rfl
  · intro h
    unfold add_stream
    split_ifs <;> rfl
  · intro h
    unfold add_stream
    split_ifs <;> rfl

/-- Witness for C2: the invariant after a mixed call sequence, and a rejected
add on a registry already holding four streams. -/
theorem C2_add_stream_witness :
    managerInv (managerRun wManagerOps) ∧
    (add_stream wFullManager "s5" []).2 = false ∧
    (add_stream wFullManager "s5" []).1 = wFullManager := by
  have h4 : MAX_STREAMS ≤ wFullManager.streams.length := by decide
  have hf := (C2_add_stream wManagerOps wFullManager "s5" []).2.2.2.1 h4
  exact ⟨(C2_add_stream wManagerOps wFullManager "s5" []).1, hf,
    (C2_add_stream wManagerOps wFullManager "s5" []).2.1 hf⟩

/-- C4 (code-bug exhibit): with target_fps 15, a worker constructed at t = 0
reading frames at t = 0.5 s and t = 1.5 s queues frame numbers 1 and then 0,
because _update_fps_tracking resets frame_count to zero before the envelope
reads it; the queued frame numbers are not strictly increasing. -/
theorem C4_frame_number_not_monotonic :
    queuedFrameNumbers (1 / 15) (captureInit 0) [1 / 2, 3 / 2] = [1, 0] ∧
    ¬ List.Chain' (fun a b => a < b)
        (queuedFrameNumbers (1 / 15) (captureInit 0) [1 / 2, 3 / 2]) := by
  have h : queuedFrameNumbers (1 / 15) (captureInit 0) [1 / 2, 3 / 2] = [1, 0] := by
    simp only [queuedFrameNumbers, captureInit, captureRead, update_fps_tracking,
      List.foldl_cons, List.foldl_nil]
    norm_num
  refine ⟨h, ?_⟩
  rw [h]
  intro hch
  rw [List.chain'_cons] at hch
  exact absurd hch.1 (by omega)

/-- Running the whole remaining schedule when nothing stops and nothing
connects: all delays are slept and the outcome is exhaustion. -/
theorem backoffGo_exhausted (stop connect : Nat → Bool) :
    ∀ (ds : List Nat) (i : Nat),
      (∀ k, k < ds.length → stop (i + k) = false) →
      (∀ k, k < ds.length → connect (i + k) = false) →
      backoffGo stop connect i ds = (ds, .exhausted) := by
  intro ds
  induction ds with
  | nil => intro i _ _; rfl
  | cons d ds ih =>
    intro i hs hc
    have hs0 : stop i = false := by simpa using hs 0 (by simp)
    have hc0 : connect i = false := by simpa using hc 0 (by simp)
    have hrec := ih (i + 1)
      (fun k hk => by
        have := hs (k + 1) (by simpa using Nat.succ_lt_succ hk)
        simpa [Nat.add_assoc, Nat.add_comm, Nat.add_left_comm] using this)
      (fun k hk => by
        have := hc (k + 1) (by simpa using Nat.succ_lt_succ hk)
        simpa [Nat.add_assoc, Nat.add_comm, Nat.add_left_comm] using this)
    simp [backoffGo, hs0, hc0, hrec]

/-- Running the remaining schedule when the j-th attempt connects: exactly the
first j + 1 delays are slept, in order, and the loop returns immediately. -/
theorem backoffGo_reconnected (stop connect : Nat → Bool) :
    ∀ (ds : List Nat) (i j : Nat), j < ds.length →
      (∀ k, k ≤ j → stop (i + k) = false) →
      (∀ k, k < j → connect (i + k) = false) →
      connect (i + j) = true →
      backoffGo stop connect i ds = (ds.take (j + 1), .reconnected) := by
  intro ds
  induction ds with
  | nil => intro i j hj; simp at hj
  | cons d ds ih =>
    intro i j hj hs hc hcj
    have hs0 : stop i = false := by simpa using hs 0 (Nat.zero_le _)
    cases j with
    | zero =>
      have hc0 : connect i = true := by simpa using hcj
      simp [backoffGo, hs0, hc0]
    | succ j =>
      have hc0 : connect i = false := by simpa using hc 0 (Nat.succ_pos _)
      have hrec := ih (i + 1) j (by simpa using hj)
        (fun k hk => by
          have := hs (k + 1) (Nat.succ_le_succ hk)
          simpa [Nat.add_assoc, Nat.add_comm, Nat.add_left_comm] using this)
        (fun k hk => by
          have := hc (k + 1) (Nat.succ_lt_succ hk)
          simpa [Nat.add_assoc, Nat.add_comm, Nat.add_left_comm] using this)
        (by
          have : i + 1 + j = i + (j + 1) := by omega
          rw [this]
          exact hcj)
      simp [backoffGo, hs0, hc0, hrec]

/-- Running the remaining schedule when the stop event is observed before the
j-th sleep: exactly the first j delays were slept. -/
theorem backoffGo_stopped (stop connect : Nat → Bool) :
    ∀ (ds : List Nat) (i j : Nat), j < ds.length →
      (∀ k, k < j → stop (i + k) = false ∧ connect (i + k) = false) →
      stop (i + j) = true →
      backoffGo stop connect i ds = (ds.take j, .stopped) := by
  intro ds
  induction ds with
  | nil => intro i j hj; simp at hj
  | cons d ds ih =>
    intro i j hj hsc hsj
    cases j with
    | zero =>
      have hs0 : stop i = true := by simpa using hsj
      simp [backoffGo, hs0]
    | succ j =>
      have hs0 : stop i = false := by simpa using (hsc 0 (Nat.succ_pos _)).1
      have hc0 : connect i = false := by simpa using (hsc 0 (Nat.succ_pos _)).2
      have hrec := ih (i + 1) j (by simpa using hj)
        (fun k hk => by
          have := hsc (k + 1) (Nat.succ_lt_succ hk)
          simpa [Nat.add_assoc, Nat.add_comm, Nat.add_left_comm] using this)
        (by
          have : i + 1 + j = i + (j + 1) := by omega
          rw [this]
          exact hsj)
      simp [backoffGo, hs0, hc0, hrec]

/-- With auto-reconnect on, a stop that never comes and a source that never
connects, the run loop never exits: each iteration adds another full round of
seven backoff sleeps. -/
theorem runLoopNoStop_neverConnect (connect : Nat → Bool)
    (hc : ∀ a, connect a = false) :
    ∀ (fuel a : Nat),
      (runLoopNoStop connect fuel a).2 = false ∧
      (runLoopNoStop connect fuel a).1.length = 7 * fuel := by
  intro fuel
  induction fuel with
  | zero => intro a; simp [runLoopNoStop]
  | succ fuel ih =>
    intro a
    have hb : backoffGo (fun _ => false) (fun i => connect (a + 1 + i)) 0
        backoffDelays = (backoffDelays, .exhausted) :=
      backoffGo_exhausted _ _ backoffDelays 0 (fun k _ => rfl)
        (fun k _ => hc (a + 1 + (0 + k)))
    have hca := hc a
    simp only [runLoopNoStop, hca, Bool.false_eq_true, if_false, hb]
    have hrest := ih (a + 1 + ([1, 2, 4, 8, 16, 32, 60] : List Nat).length)
    constructor
    · simpa [backoffDelays] using hrest.1
    · simp only [List.length_append, backoffDelays]
      have h7 : ([1, 2, 4, 8, 16, 32, 60] : List Nat).length = 7 := rfl
      rw [h7] at hrest ⊢
      omega

/-- C5 counterexample: with a source that never connects and no stop request,
two modelled iterations of the run loop sleep the full schedule twice and the
loop has not exited: after exhausting the seven delays the worker does not
exit its run loop but starts a new connect/backoff round. -/
theorem C5_counterexample :
    (runLoopNoStop (fun _ => false) 2 0).1 =
      [1, 2, 4, 8, 16, 32, 60, 1, 2, 4, 8, 16, 32, 60] ∧
    (runLoopNoStop (fun _ => false) 2 0).2 = false := by
  decide

/-- C5 amended: a failed connect with auto-reconnect retries after delays of
exactly 1, 2, 4, 8, 16, 32, 60 seconds in order, one attempt per delay,
stopping early as soon as a connect succeeds or a stop is requested; if all
seven delays are exhausted without success the status is set to error, and
control returns to the run loop, which starts another connect/backoff round
rather than exiting. -/
theorem C5_backoff_schedule (stop connect : Nat → Bool) (j fuel : Nat) :
    ((∀ k, k < 7 → stop k = false) → (∀ k, k < 7 → connect k = false) →
      reconnect_with_backoff stop connect = (backoffDelays, .exhausted) ∧
      statusAfterBackoff .exhausted "connected" = "error") ∧
    (j < 7 → (∀ k, k ≤ j → stop k = false) → (∀ k, k < j → connect k = false) →
      connect j = true →
      reconnect_with_backoff stop connect =
        (backoffDelays.take (j + 1), .reconnected)) ∧
    (j < 7 → (∀ k, k < j → stop k = false ∧ connect k = false) → stop j = true →
      reconnect_with_backoff stop connect = (backoffDelays.take j, .stopped)) ∧
    ((∀ a, connect a = false) →
      (runLoopNoStop connect fuel 0).2 = false ∧
      (runLoopNoStop connect fuel 0).1.length = 7 * fuel) := by
  have hlen : backoffDelays.length = 7 := rfl
  refine ⟨?_, ?_, ?_, ?_⟩
  · intro hs hc
    refine ⟨?_, rfl⟩
    exact backoffGo_exhausted stop connect backoffDelays 0
      (fun k hk => by simpa using hs k (by omega))
      (fun k hk => by simpa using hc k (by omega))
  · intro hj hs hc hcj
    exact backoffGo_reconnected stop connect backoffDelays 0 j (by omega)
      (fun k hk => by simpa using hs k hk)
      (fun k hk => by simpa using hc k hk)
      (by simpa using hcj)
  · intro hj hsc hsj
    exact backoffGo_stopped stop connect backoffDelays 0 j (by omega)
      (fun k hk => by simpa using hsc k hk)
      (by simpa using hsj)
  · intro hc
    exact runLoopNoStop_neverConnect connect hc fuel 0

/-- Witness for C5 amended: the source connects on the third attempt, so the
sleeps are exactly 1, 2, 4; and a never-connecting source keeps the loop
running through one full round of seven sleeps. -/
theorem C5_backoff_schedule_witness :
    reconnect_with_backoff (fun _ => false) (fun i => decide (i = 2)) =
      (backoffDelays.take (2 + 1), .reconnected) ∧
    (runLoopNoStop (fun _ => false) 1 0).2 = false ∧
    (runLoopNoStop (fun _ => false) 1 0).1.length = 7 * 1 := by
  have hrec :=
    (C5_backoff_schedule (fun _ => false) (fun i => decide (i = 2)) 2 1).2.1
      (by decide) (fun k _ => rfl) (by decide) (by decide)
  have hrun :=
    (C5_backoff_schedule (fun _ => false) (fun _ => false) 2 1).2.2.2
      (fun a => rfl)
  exact ⟨hrec, hrun.1, hrun.2⟩

/-- Appending one element whose relation to the previous last element holds
preserves a chain. -/
theorem chain'_append_singleton {α : Type} (R : α → α → Prop) (l : List α)
    (e : α) (hl : l.Chain' R) (hlast : ∀ x, l.getLast? = some x → R x e) :
    (l ++ [e]).Chain' R := by
  rw [List.chain'_append]
  refine ⟨hl, List.chain'_singleton e, ?_⟩
  intro x hx y hy
  simp only [List.head?_cons, Option.mem_def, Option.some.injEq] at hy
  subst hy
  exact hlast x hx

/-- On a time-sorted history, keeping the entries newer than a cutoff keeps a
suffix. -/
theorem filter_newer_eq_drop (c : ℚ) :
    ∀ (h : List ZAStatusEntry),
      h.Pairwise (fun a b => a.timestamp ≤ b.timestamp) →
      ∃ k, h.filter (fun e => c < e.timestamp) = h.drop k := by
  intro h
  induction h with
  | nil => exact fun _ => ⟨0, rfl⟩
  | cons a t ih =>
    intro hp
    have hhead := (List.pairwise_cons.mp hp).1
    have htail := (List.pairwise_cons.mp hp).2
    by_cases hc : c < a.timestamp
    · refine ⟨0, ?_⟩
      rw [List.drop_zero, List.filter_cons_of_pos (by simpa using hc)]
      congr 1
      rw [List.filter_eq_self]
      intro e he
      simpa using lt_of_lt_of_le hc (hhead e he)
    · obtain ⟨k, hk⟩ := ih htail
      exact ⟨k + 1, by rw [List.filter_cons_of_neg (by simpa using hc),
        List.drop_succ_cons, hk]⟩

/-- One rect-analyzer status update preserves the no-adjacent-duplicate
property: an entry is appended only when its status differs from the last one,
and the 1000-entry truncation keeps a suffix. -/
theorem rectUpdate_noAdjacentDup (h : List StatusEntry) (s : String) (ts : ℚ)
    (hh : noAdjacentDup h) :
    noAdjacentDup (rectUpdateStatusHistory h s ts) := by
  unfold noAdjacentDup at hh ⊢
  by_cases hg : lastStatus h ≠ some s
  · simp only [rectUpdateStatusHistory, if_pos hg]
    have happ : (h ++ [({ status := s, timestamp := ts } : StatusEntry)]).Chain'
        (fun a b => a.status ≠ b.status) := by
      apply chain'_append_singleton _ _ _ hh
      intro x hx hxe
      apply hg
      unfold lastStatus
      rw [hx]
      simpa using hxe
    by_cases hlen :
        1000 < (h ++ [({ status := s, timestamp := ts } : StatusEntry)]).length
    · rw [if_pos hlen]
      exact happ.drop _
    · rw [if_neg hlen]
      exact happ
  · simp only [rectUpdateStatusHistory, if_neg hg]
    exact hh

/-- One ZoneAnalyzer status update preserves the full history invariant,
provided the new timestamp is not older than every earlier update. -/
theorem zaUpdate_good (t ts : ℚ) (s : String) (pc : Nat)
    (h : List ZAStatusEntry) (hg : zaGood t h) (hts : t ≤ ts) :
    zaGood ts (zaUpdateStatusHistory h s pc ts) := by
  obtain ⟨h1, h2, h3⟩ := hg
  by_cases hne : zaLastStatus h ≠ some s
  · simp only [zaUpdateStatusHistory, if_pos hne]
    have hchain : (h ++ [({ status := s, timestamp := ts, person_count := pc } :
        ZAStatusEntry)]).Chain' (fun a b => a.status ≠ b.status) := by
      apply chain'_append_singleton _ _ _ h1
      intro x hx hxe
      apply hne
      unfold zaLastStatus
      rw [hx]
      simpa using hxe
    have hpair : (h ++ [({ status := s, timestamp := ts, person_count := pc } :
        ZAStatusEntry)]).Pairwise (fun a b => a.timestamp ≤ b.timestamp) := by
      rw [List.pairwise_append]
      refine ⟨h2, List.pairwise_singleton _ _, ?_⟩
      intro a ha b hb
      simp only [List.mem_singleton] at hb
      subst hb
      exact le_trans (h3 a ha) hts
    have hbnd : ∀ x ∈ h ++ [({ status := s, timestamp := ts, person_count := pc } :
        ZAStatusEntry)], x.timestamp ≤ ts := by
      intro x hx
      rcases List.mem_append.mp hx with hx | hx
      · exact le_trans (h3 x hx) hts
      · simp only [List.mem_singleton] at hx
        subst hx
        exact le_rfl
    obtain ⟨k, hk⟩ := filter_newer_eq_drop (ts - 86400) _ hpair
    rw [hk]
    exact ⟨hchain.drop k,
      List.Pairwise.sublist (List.drop_sublist _ _) hpair,
      fun x hx => hbnd x (List.drop_subset _ _ hx)⟩
  · simp only [zaUpdateStatusHistory, if_neg hne]
    exact ⟨h1, h2, fun e he => le_trans (h3 e he) hts⟩

/-- Pruning old entries preserves the history invariant. -/
theorem zaClear_good (t c : ℚ) (h : List ZAStatusEntry) (hg : zaGood t h) :
    zaGood t (zaClearOld c h) := by
  obtain ⟨h1, h2, h3⟩ := hg
  obtain ⟨k, hk⟩ := filter_newer_eq_drop c h h2
  unfold zaClearOld
  rw [hk]
  exact ⟨h1.drop k, List.Pairwise.sublist (List.drop_sublist _ _) h2,
    fun x hx => h3 x (List.drop_subset _ _ hx)⟩

/-- Folding any history-mutation sequence whose update timestamps form a chain
above the current bound keeps consecutive statuses distinct. -/
theorem zaRun_good : ∀ (ops : List ZAHistOp) (t : ℚ) (h : List ZAStatusEntry),
    zaGood t h → List.Chain (fun a b => a ≤ b) t (updTimes ops) →
    (ops.foldl zaHistStep h).Chain' (fun a b => a.status ≠ b.status) := by
  intro ops
  induction ops with
  | nil => exact fun t h hg _ => hg.1
  | cons op ops ih =>
    intro t h hg hchain
    cases op with
    | update s pc ts =>
      have hts : updTimes (ZAHistOp.update s pc ts :: ops) = ts :: updTimes ops := by
        simp [updTimes]
      rw [hts, List.chain_cons] at hchain
      exact ih ts _ (zaUpdate_good t ts s pc h hg hchain.1) hchain.2
    | clearOld c =>
      have hts : updTimes (ZAHistOp.clearOld c :: ops) = updTimes ops := by
        simp [updTimes]
      rw [hts] at hchain
      exact ih t _ (zaClear_good t c h hg) hchain

/-- Folding any rect-analyzer update sequence keeps consecutive statuses
distinct. -/
theorem rectRun_noAdjacentDup :
    ∀ (ups : List (String × ℚ)) (h : List StatusEntry), noAdjacentDup h →
      noAdjacentDup (ups.foldl (fun h u => rectUpdateStatusHistory h u.1 u.2) h) := by
  intro ups
  induction ups with
  | nil => exact fun h hh => hh
  | cons u ups ih => exact fun h hh => ih _ (rectUpdate_noAdjacentDup h u.1 u.2 hh)

/-- C8: after any sequence of analysis-pass updates and pruning or truncation,
a zone status history (of either analyzer) never holds two consecutive entries
with the same status; for the ZoneAnalyzer the update timestamps are assumed
nondecreasing, as produced by the wall clock of successive passes. -/
theorem C8_history_no_adjacent_dup (ups : List (String × ℚ))
    (ops : List ZAHistOp)
    (hmono : (updTimes ops).Chain' (fun a b => a ≤ b)) :
    noAdjacentDup (rectHistRun ups) ∧ zaNoAdjacentDup (zaHistRun ops) := by
  constructor
  · unfold rectHistRun
    apply rectRun_noAdjacentDup
    unfold noAdjacentDup
    exact List.chain'_nil
  · unfold zaHistRun zaNoAdjacentDup
    have hgood0 : ∀ t : ℚ, zaGood t [] :=
      fun t => ⟨List.chain'_nil, List.Pairwise.nil, by simp⟩
    cases hut : updTimes ops with
    | nil =>
      apply zaRun_good ops 0 [] (hgood0 0)
      rw [hut]
      exact List.Chain.nil
    | cons t rest =>
      apply zaRun_good ops t [] (hgood0 t)
      rw [hut]
      rw [hut] at hmono
      exact List.Chain.cons le_rfl hmono

/-- Witness for C8: a repeated work status and an interleaved prune. -/
theorem C8_history_no_adjacent_dup_witness :
    (updTimes wZaOps).Chain' (fun a b => a ≤ b) ∧
    (noAdjacentDup (rectHistRun wHistUps) ∧ zaNoAdjacentDup (zaHistRun wZaOps)) := by
  have hchain : (updTimes wZaOps).Chain' (fun a b => a ≤ b) := by
    norm_num [updTimes, wZaOps, List.filterMap_cons, List.chain'_cons]
  exact ⟨hchain, C8_history_no_adjacent_dup wHistUps wZaOps hchain⟩

/-- Adding a nonnegative duration keeps all three accumulators nonnegative. -/
theorem addDuration_nonneg (acc : ℚ × ℚ × ℚ) (s : String) (d : ℚ)
    (h1 : 0 ≤ acc.1) (h2 : 0 ≤ acc.2.1) (h3 : 0 ≤ acc.2.2) (hd : 0 ≤ d) :
    0 ≤ (addDuration acc s d).1 ∧ 0 ≤ (addDuration acc s d).2.1 ∧
    0 ≤ (addDuration acc s d).2.2 := by
  unfold addDuration
  split_ifs
  · exact ⟨add_nonneg h1 hd, h2, h3⟩
  · exact ⟨h1, add_nonneg h2 hd, h3⟩
  · exact ⟨h1, h2, add_nonneg h3 hd⟩
  · exact ⟨h1, h2, h3⟩

/-- Over a time-sorted history whose entries all precede now, the summed
durations are nonnegative. -/
theorem statusDurations_nonneg (now : ℚ) :
    ∀ (l : List StatusEntry),
      l.Pairwise (fun a b => a.timestamp ≤ b.timestamp) →
      (∀ e ∈ l, e.timestamp ≤ now) →
      0 ≤ (statusDurations now l).1 ∧ 0 ≤ (statusDurations now l).2.1 ∧
      0 ≤ (statusDurations now l).2.2
  | [] => by
    intro _ _
    simp [statusDurations]
  | [e] => by
    intro _ hb
    have he : e.timestamp ≤ now := hb e (by simp)
    unfold statusDurations
    exact addDuration_nonneg (0, 0, 0) e.status _ le_rfl le_rfl le_rfl
      (div_nonneg (by linarith) (by norm_num))
  | e :: e2 :: rest => by
    intro hp hb
    have h12 : e.timestamp ≤ e2.timestamp :=
      (List.pairwise_cons.mp hp).1 e2 (by simp)
    have ih := statusDurations_nonneg now (e2 :: rest)
      (List.pairwise_cons.mp hp).2 (fun x hx => hb x (List.mem_cons_of_mem _ hx))
    unfold statusDurations
    exact addDuration_nonneg _ e.status _ ih.1 ih.2.1 ih.2.2
      (div_nonneg (by linarith) (by norm_num))

/-- Rounding to two decimals keeps a value of [0, 100] inside [0, 100]. -/
theorem round2_bounds (q : ℚ) (h0 : 0 ≤ q) (h100 : q ≤ 100) :
    0 ≤ round2 q ∧ round2 q ≤ 100 := by
  unfold round2
  constructor
  · apply div_nonneg _ (by norm_num)
    have hz : (0 : ℤ) ≤ round (q * 100) := by
      rw [round_eq]
      apply Int.le_floor.mpr
      push_cast
      linarith
    exact_mod_cast hz
  · rw [div_le_iff₀ (by norm_num : (0 : ℚ) < 100)]
    have hub : round (q * 100) ≤ (10000 : ℤ) := by
      rw [round_eq]
      have hf : ⌊q * 100 + 1 / 2⌋ ≤ ⌊(10000 : ℚ) + 1 / 2⌋ :=
        Int.floor_le_floor (by linarith)
      have h2 : ⌊(10000 : ℚ) + 1 / 2⌋ = 10000 := by
        apply Int.floor_eq_iff.mpr
        constructor <;> norm_num
      rw [h2] at hf
      exact hf
    calc ((round (q * 100) : ℤ) : ℚ) ≤ ((10000 : ℤ) : ℚ) := by exact_mod_cast hub
      _ = 100 * 100 := by norm_num

/-- Rounding to two decimals moves a value by at most 1/200. -/
theorem abs_round2_sub_le (q : ℚ) : |round2 q - q| ≤ 1 / 200 := by
  unfold round2
  have h := abs_sub_round (q * 100)
  rw [abs_sub_comm] at h
  have heq : ((round (q * 100) : ℤ) : ℚ) / 100 - q =
      (((round (q * 100) : ℤ) : ℚ) - q * 100) / 100 := by ring
  rw [heq, abs_div]
  have h100 : |(100 : ℚ)| = 100 := by norm_num
  rw [h100]
  rw [show (1 : ℚ) / 200 = (1 / 2) / 100 by norm_num]
  exact (div_le_div_iff_of_pos_right (by norm_num)).mpr h

/-- The sum of three two-decimal roundings differs from the rounding of the
sum by at most 1/50. -/
theorem round2_sum_tolerance (w i o : ℚ) :
    |round2 w + round2 i + round2 o - round2 (w + i + o)| ≤ 1 / 50 := by
  have hw := abs_round2_sub_le w
  have hi := abs_round2_sub_le i
  have ho := abs_round2_sub_le o
  have ht := abs_round2_sub_le (w + i + o)
  rw [abs_le] at hw hi ho ht ⊢
  constructor <;> linarith [hw.1, hw.2, hi.1, hi.2, ho.1, ho.2, ht.1, ht.2]

/-- C6: for a history produced in time order and queried at a later instant,
get_zone_efficiency keeps the efficiency percentage in [0, 100]; the reported
work, idle and other minutes sum to the reported total within 1/50 of a
minute (the rounding tolerance); and, on a nonempty window, the total is the
rounded duration sum and the efficiency is work over total times 100 rounded
to two decimals when the total is positive, and 0 when the total is zero. -/
theorem C6_efficiency (history : List StatusEntry) (cutoff now : ℚ)
    (hs : history.Pairwise (fun a b => a.timestamp ≤ b.timestamp))
    (hn : ∀ e ∈ history, e.timestamp ≤ now) :
    (0 ≤ (get_zone_efficiency history cutoff now).efficiency_percentage ∧
      (get_zone_efficiency history cutoff now).efficiency_percentage ≤ 100) ∧
    (∀ t, (get_zone_efficiency history cutoff now).total_minutes = some t →
      |(get_zone_efficiency history cutoff now).work_minutes +
          (get_zone_efficiency history cutoff now).idle_minutes +
          (get_zone_efficiency history cutoff now).other_minutes - t| ≤ 1 / 50) ∧
    ((effRecent history cutoff).isEmpty = false →
      (get_zone_efficiency history cutoff now).total_minutes =
        some (round2 ((statusDurations now (effRecent history cutoff)).1 +
          (statusDurations now (effRecent history cutoff)).2.1 +
          (statusDurations now (effRecent history cutoff)).2.2)) ∧
      (0 < (statusDurations now (effRecent history cutoff)).1 +
          (statusDurations now (effRecent history cutoff)).2.1 +
          (statusDurations now (effRecent history cutoff)).2.2 →
        (get_zone_efficiency history cutoff now).efficiency_percentage =
          round2 ((statusDurations now (effRecent history cutoff)).1 /
            ((statusDurations now (effRecent history cutoff)).1 +
             (statusDurations now (effRecent history cutoff)).2.1 +
             (statusDurations now (effRecent history cutoff)).2.2) * 100)) ∧
      ((statusDurations now (effRecent history cutoff)).1 +
          (statusDurations now (effRecent history cutoff)).2.1 +
          (statusDurations now (effRecent history cutoff)).2.2 = 0 →
        (get_zone_efficiency history cutoff now).efficiency_percentage = 0)) := by
  have hrs : (effRecent history cutoff).Pairwise
      (fun a b => a.timestamp ≤ b.timestamp) := hs.filter _
  have hrn : ∀ e ∈ effRecent history cutoff, e.timestamp ≤ now :=
    fun e he => hn e (List.mem_of_mem_filter he)
  have hd := statusDurations_nonneg now (effRecent history cutoff) hrs hrn
  by_cases hre : (effRecent history cutoff).isEmpty = true
  · have hval : get_zone_efficiency history cutoff now =
        { efficiency_percentage := 0, work_minutes := 0, idle_minutes := 0,
          other_minutes := 0, total_minutes := none } := by
      simp only [get_zone_efficiency, hre, if_true]
    rw [hval]
    refine ⟨⟨le_rfl, by norm_num⟩, ?_, ?_⟩
    · intro t ht
      simp at ht
    · intro hne
      rw [hre] at hne
      simp at hne
  · have hre2 : (effRecent history cutoff).isEmpty = false := by
      simp only [Bool.not_eq_true] at hre
      exact hre
    have hval : get_zone_efficiency history cutoff now =
        { efficiency_percentage :=
            round2 (if 0 < (statusDurations now (effRecent history cutoff)).1 +
                (statusDurations now (effRecent history cutoff)).2.1 +
                (statusDurations now (effRecent history cutoff)).2.2 then
              (statusDurations now (effRecent history cutoff)).1 /
                ((statusDurations now (effRecent history cutoff)).1 +
                 (statusDurations now (effRecent history cutoff)).2.1 +
                 (statusDurations now (effRecent history cutoff)).2.2) * 100
            else 0)
          work_minutes := round2 (statusDurations now (effRecent history cutoff)).1
          idle_minutes := round2 (statusDurations now (effRecent history cutoff)).2.1
          other_minutes := round2 (statusDurations now (effRecent history cutoff)).2.2
          total_minutes := some (round2
            ((statusDurations now (effRecent history cutoff)).1 +
             (statusDurations now (effRecent history cutoff)).2.1 +
             (statusDurations now (effRecent history cutoff)).2.2)) } := by
      simp only [get_zone_efficiency, hre2, Bool.false_eq_true, if_false]
    rw [hval]
    refine ⟨?_, ?_, fun _ => ⟨rfl, ?_, ?_⟩⟩
    · by_cases hpos : 0 < (statusDurations now (effRecent history cutoff)).1 +
          (statusDurations now (effRecent history cutoff)).2.1 +
          (statusDurations now (effRecent history cutoff)).2.2
      · rw [if_pos hpos]
        apply round2_bounds
        · apply mul_nonneg _ (by norm_num)
          exact div_nonneg hd.1 (le_of_lt hpos)
        · have hw_le : (statusDurations now (effRecent history cutoff)).1 ≤
              (statusDurations now (effRecent history cutoff)).1 +
              (statusDurations now (effRecent history cutoff)).2.1 +
              (statusDurations now (effRecent history cutoff)).2.2 := by
            linarith [hd.2.1, hd.2.2]
          have hq : (statusDurations now (effRecent history cutoff)).1 /
              ((statusDurations now (effRecent history cutoff)).1 +
               (statusDurations now (effRecent history cutoff)).2.1 +
               (statusDurations now (effRecent history cutoff)).2.2) ≤ 1 :=
            (div_le_one hpos).mpr hw_le
          linarith
      · rw [if_neg hpos]
        constructor
        · apply (round2_bounds 0 le_rfl (by norm_num)).1
        · apply (round2_bounds 0 le_rfl (by norm_num)).2
    · intro t ht
      simp only [Option.some.injEq] at ht
      subst ht
      exact round2_sum_tolerance _ _ _
    · intro hpos
      rw [if_pos hpos]
    · intro hzero
      rw [if_neg (by rw [hzero]; exact lt_irrefl 0)]
      unfold round2
      norm_num

/-- Witness for C6 at Scenario E: idle from 0 s, work from 3600 s, queried at
7200 s with a window covering everything. -/
theorem C6_efficiency_witness :
    (wEffHistory.Pairwise (fun a b => a.timestamp ≤ b.timestamp) ∧
      ∀ e ∈ wEffHistory, e.timestamp ≤ 7200) ∧
    ((0 ≤ (get_zone_efficiency wEffHistory (-1) 7200).efficiency_percentage ∧
      (get_zone_efficiency wEffHistory (-1) 7200).efficiency_percentage ≤ 100) ∧
    (∀ t, (get_zone_efficiency wEffHistory (-1) 7200).total_minutes = some t →
      |(get_zone_efficiency wEffHistory (-1) 7200).work_minutes +
          (get_zone_efficiency wEffHistory (-1) 7200).idle_minutes +
          (get_zone_efficiency wEffHistory (-1) 7200).other_minutes - t| ≤ 1 / 50) ∧
    ((effRecent wEffHistory (-1)).isEmpty = false →
      (get_zone_efficiency wEffHistory (-1) 7200).total_minutes =
        some (round2 ((statusDurations 7200 (effRecent wEffHistory (-1))).1 +
          (statusDurations 7200 (effRecent wEffHistory (-1))).2.1 +
          (statusDurations 7200 (effRecent wEffHistory (-1))).2.2)) ∧
      (0 < (statusDurations 7200 (effRecent wEffHistory (-1))).1 +
          (statusDurations 7200 (effRecent wEffHistory (-1))).2.1 +
          (statusDurations 7200 (effRecent wEffHistory (-1))).2.2 →
        (get_zone_efficiency wEffHistory (-1) 7200).efficiency_percentage =
          round2 ((statusDurations 7200 (effRecent wEffHistory (-1))).1 /
            ((statusDurations 7200 (effRecent wEffHistory (-1))).1 +
             (statusDurations 7200 (effRecent wEffHistory (-1))).2.1 +
             (statusDurations 7200 (effRecent wEffHistory (-1))).2.2) * 100)) ∧
      ((statusDurations 7200 (effRecent wEffHistory (-1))).1 +
          (statusDurations 7200 (effRecent wEffHistory (-1))).2.1 +
          (statusDurations 7200 (effRecent wEffHistory (-1))).2.2 = 0 →
        (get_zone_efficiency wEffHistory (-1) 7200).efficiency_percentage = 0))) := by
  have hp : wEffHistory.Pairwise (fun a b => a.timestamp ≤ b.timestamp) := by
    norm_num [wEffHistory, List.pairwise_cons]
  have hb : ∀ e ∈ wEffHistory, e.timestamp ≤ 7200 := by
    intro e he
    simp only [wEffHistory, List.mem_cons, List.not_mem_nil, or_false] at he
    rcases he with rfl | rfl <;> norm_num
  exact ⟨⟨hp, hb⟩, C6_efficiency wEffHistory (-1) 7200 hp hb⟩

end Marmot
